import Mathlib

/-!
# Verification of `node-global-storage` (v3 storage module)

A shallow embedding of the storage engine in `src/storage.ts`:
an in-process key/value store with per-entry protection, update/delete
notification callbacks, and a process-wide default-options registry.

Modelling conventions:
* JS values are modelled by an inductive `Value` with a distinguished
  `undef` constructor (the JS `undefined`), since the code distinguishes
  stored `undefined` from key absence only through `Map.has`.
* Callbacks are side-effecting JS functions; we model a callback by a
  numeric identity and record each invocation, together with its argument
  tuple, in an explicit event trace returned by every operation.
* `Date` timestamps are natural numbers; `new Date()` becomes an explicit
  `now` parameter.  A JS `Date` object is always truthy, so `x ||= now`
  on a date field keeps any previously assigned date.
* The JS `Map` (insertion-ordered, unique keys) is an association list;
  `Map.set` replaces in place or appends, `Map.delete` removes the entry.
* The module-level mutable globals `datastore` and `defaultOptions` are
  gathered in a `GlobalState` record threaded through the operations.
-/

namespace NodeGlobalStorage

/-- Keys are JS strings. -/
abbrev Key := String

/-- A callback's identity ("which function object is stored/invoked"). -/
abbrev Callback := Nat

/-- JS values, with `undefined` distinguished.  The store treats values
as an opaque payload, so a few representative constructors suffice. -/
inductive Value
  | undef
  | str (s : String)
  | int (n : Int)
  | bool (b : Bool)
  deriving DecidableEq, Repr

/-- `StorageItem` from `storage.ts`: the per-key entry. -/
structure StorageItem where
  value : Value
  «protected» : Bool
  createdAt : Nat
  updatedAt : Nat
  onUpdate : Option Callback := none
  onDelete : Option Callback := none
  deriving DecidableEq, Repr

/-- `StorageCollection = Map<string, StorageItem>`, as an insertion-ordered
association list with unique keys. -/
abbrev StorageCollection := List (Key × StorageItem)

/-- `datastore.get(key)`: first entry with the given key. -/
def getStorageItem : StorageCollection → Key → Option StorageItem
  | [], _ => none
  | p :: rest, key => if p.1 = key then some p.2 else getStorageItem rest key

/-- `datastore.set(key, item)`: replace in place, else append (JS `Map.set`). -/
def mapSet : StorageCollection → Key → StorageItem → StorageCollection
  | [], key, item => [(key, item)]
  | p :: rest, key, item =>
    if p.1 = key then (key, item) :: rest else p :: mapSet rest key item

/-- `datastore.delete(key)` (JS `Map.delete`; keys are unique in a `Map`). -/
def mapDelete : StorageCollection → Key → StorageCollection
  | [], _ => []
  | p :: rest, key =>
    if p.1 = key then mapDelete rest key else p :: mapDelete rest key

/-- `datastore.has(key)`. -/
def mapHas (datastore : StorageCollection) (key : Key) : Bool :=
  (getStorageItem datastore key).isSome

/-- `DefaultOptions` from `storage.types.ts` (v3): the registry record. -/
structure DefaultOptions where
  onUpdate : Option Callback
  onDelete : Option Callback
  «protected» : Bool
  force : Bool
  silent : Bool
  deriving DecidableEq, Repr

/-- `initialDefaultOptions` from `storage.ts`. -/
def initialDefaultOptions : DefaultOptions :=
  { «protected» := false, force := false, onUpdate := none, onDelete := none,
    silent := false }

/-- `SetOptions`: every field optional; an absent `options` argument is the
all-`none` record (each `options?.x` then reads `undefined`). -/
structure SetOptions where
  onUpdate : Option Callback := none
  onDelete : Option Callback := none
  «protected» : Option Bool := none
  force : Option Bool := none
  silent : Option Bool := none
  deriving DecidableEq, Repr

/-- `UnsetOptions`. -/
structure UnsetOptions where
  silent : Option Bool := none
  deriving DecidableEq, Repr

/-- `FlushOptions` (same shape as `UnsetOptions`). -/
abbrev FlushOptions := UnsetOptions

/-- The module-level mutable state: `datastore` and `defaultOptions`. -/
structure GlobalState where
  datastore : StorageCollection
  defaultOptions : DefaultOptions
  deriving DecidableEq, Repr

/-- The state at module load: empty store, initial defaults. -/
def initialState : GlobalState :=
  { datastore := [], defaultOptions := initialDefaultOptions }

/-- A recorded callback invocation: which callback, with which arguments. -/
inductive Event
  | update (cb : Callback) (key : Key) (newValue : Value) (oldValue : Value)
  | delete (cb : Callback) (key : Key) (value : Value)
  deriving DecidableEq, Repr

/-- `getValue(key)`: `getStorageItem(key)?.value` — `undefined` when the key
is absent, the stored value (possibly `undefined`) otherwise. -/
def getValue (st : GlobalState) (key : Key) : Value :=
  ((getStorageItem st.datastore key).map (fun i => i.value)).getD Value.undef

/-- `getMetadata(key)`: the full `StorageItem`, or `undefined`. -/
def getMetadata (st : GlobalState) (key : Key) : Option StorageItem :=
  getStorageItem st.datastore key

/-- `isSet(key)`: `datastore.has(key)`. -/
def isSet (st : GlobalState) (key : Key) : Bool :=
  mapHas st.datastore key

/-- `isProtected(key)`: `Boolean(getStorageItem(key)?.protected)`. -/
def isProtected (st : GlobalState) (key : Key) : Bool :=
  ((getStorageItem st.datastore key).map (fun i => i.«protected»)).getD false

/-- `setValue(key, value, options?)` from `storage.ts`.

The JS body reads `const item = getStorageItem(key) || {}`; fields of the
empty object read `undefined`, which is falsy (`item.protected`,
`item.createdAt`) and skips the callback branch (`item.onUpdate`).  We keep
`item : Option StorageItem` and take the `undefined` readings through
`Option.getD` / `Option.bind`.  `x ||= e` on a callback field keeps a
previously stored (truthy) function, hence `Option.or` with the old value
first; `a ?? b` on options is `Option.getD` / `Option.or`.

Returns the JS return value, the successor state, and the trace of callback
invocations (the `onUpdate` call happens before the entry is overwritten, so
its `oldValue` argument is the pre-call stored value). -/
def setValue (st : GlobalState) (now : Nat) (key : Key) (value : Value)
    (options : SetOptions) : Value × GlobalState × List Event :=
  let item := getStorageItem st.datastore key
  let force := options.force.getD st.defaultOptions.force
  let silent := options.silent.getD st.defaultOptions.silent
  if ((item.map (fun i => i.«protected»)).getD false) && !force then
    (((item.map (fun i => i.value)).getD Value.undef), st, [])
  else
    let events :=
      match item.bind (fun i => i.onUpdate) with
      | some cb =>
        if !silent then
          [Event.update cb key value ((item.map (fun i => i.value)).getD Value.undef)]
        else []
      | none => []
    let newItem : StorageItem :=
      { value := value
        «protected» := options.«protected».getD st.defaultOptions.«protected»
        onUpdate := (item.bind (fun i => i.onUpdate)).or
          (options.onUpdate.or st.defaultOptions.onUpdate)
        onDelete := (item.bind (fun i => i.onDelete)).or
          (options.onDelete.or st.defaultOptions.onDelete)
        createdAt := (item.map (fun i => i.createdAt)).getD now
        updatedAt := now }
    (value, { st with datastore := mapSet st.datastore key newItem }, events)

/-- The guard of `setValue`'s early return: `item.protected && !force`.
A write is rejected exactly when this is `true`. -/
def writeRejected (st : GlobalState) (key : Key) (options : SetOptions) : Bool :=
  (((getStorageItem st.datastore key).map (fun i => i.«protected»)).getD false)
    && !(options.force.getD st.defaultOptions.force)

/-- `unsetValue(key, options?)` from `storage.ts`: no-op when absent, else
fire `onDelete` (unless silent) with the current value, then delete. -/
def unsetValue (st : GlobalState) (key : Key) (options : UnsetOptions) :
    GlobalState × List Event :=
  match getStorageItem st.datastore key with
  | none => (st, [])
  | some item =>
    let silent := options.silent.getD st.defaultOptions.silent
    let events :=
      if !silent then
        match item.onDelete with
        | some cb => [Event.delete cb key item.value]
        | none => []
      else []
    ({ st with datastore := mapDelete st.datastore key }, events)

/-- The loop of `flush`: `for (const key of datastore.keys()) unsetValue(key, options)`.
Callbacks in this model do not re-enter the store, and each iteration only
deletes the key it visits, so iterating the live `Map.keys()` coincides with
iterating the snapshot of keys taken at entry. -/
def flushKeys (options : FlushOptions) : List Key → GlobalState → GlobalState × List Event
  | [], st => (st, [])
  | k :: ks, st =>
    let r1 := unsetValue st k options
    let r2 := flushKeys options ks r1.1
    (r2.1, r1.2 ++ r2.2)

/-- `flush(options?)` from `storage.ts`. -/
def flush (st : GlobalState) (options : FlushOptions) : GlobalState × List Event :=
  flushKeys options (st.datastore.map Prod.fst) st

/-- The typed assignments `defaultOptions[key] = value` accepted by
`setDefaultOption` (one constructor per key of `DefaultOptions`). -/
inductive DefaultOptionAssignment
  | setProtected (b : Bool)
  | setForce (b : Bool)
  | setSilent (b : Bool)
  | setOnUpdate (cb : Option Callback)
  | setOnDelete (cb : Option Callback)
  deriving DecidableEq, Repr

/-- `setDefaultOption(key, value)`: overwrite one field of the registry. -/
def setDefaultOption (st : GlobalState) (a : DefaultOptionAssignment) : GlobalState :=
  match a with
  | .setProtected b => { st with defaultOptions := { st.defaultOptions with «protected» := b } }
  | .setForce b => { st with defaultOptions := { st.defaultOptions with force := b } }
  | .setSilent b => { st with defaultOptions := { st.defaultOptions with silent := b } }
  | .setOnUpdate cb => { st with defaultOptions := { st.defaultOptions with onUpdate := cb } }
  | .setOnDelete cb => { st with defaultOptions := { st.defaultOptions with onDelete := cb } }

/-- `resetDefaultOptions()`: restore the initial snapshot. -/
def resetDefaultOptions (st : GlobalState) : GlobalState :=
  { st with defaultOptions := initialDefaultOptions }

/-- `getDefaultOptions()`: a copy of the registry. -/
def getDefaultOptions (st : GlobalState) : DefaultOptions :=
  st.defaultOptions

/-! ## Basic lemmas about the store primitives -/

theorem getStorageItem_mapSet (ds : StorageCollection) (k k' : Key) (it : StorageItem) :
    getStorageItem (mapSet ds k it) k' =
      if k' = k then some it else getStorageItem ds k' := by
  induction ds with
  | nil =>
    by_cases h : k' = k
    · subst h; simp [mapSet, getStorageItem]
    · have h2 : ¬ k = k' := fun hc => h hc.symm
      simp [mapSet, getStorageItem, h, h2]
  | cons p rest ih =>
    by_cases hp : p.1 = k
    · by_cases h : k' = k
      · subst h; simp [mapSet, getStorageItem, hp]
      · have h2 : ¬ k = k' := fun hc => h hc.symm
        have hp2 : ¬ p.1 = k' := by rw [hp]; exact h2
        simp [mapSet, getStorageItem, hp, h, h2, hp2]
    · by_cases hq : p.1 = k'
      · have hk : ¬ k' = k := fun hc => hp (hq.trans hc)
        simp [mapSet, getStorageItem, hp, hq, hk]
      · simp [mapSet, getStorageItem, hp, hq, ih]

theorem getStorageItem_mapDelete (ds : StorageCollection) (k k' : Key) :
    getStorageItem (mapDelete ds k) k' =
      if k' = k then none else getStorageItem ds k' := by
  induction ds with
  | nil =>
    by_cases h : k' = k <;> simp [mapDelete, getStorageItem, h]
  | cons p rest ih =>
    by_cases hp : p.1 = k
    · by_cases h : k' = k
      · subst h; simp [mapDelete, hp, ih]
      · have h2 : ¬ k = k' := fun hc => h hc.symm
        have hp2 : ¬ p.1 = k' := by rw [hp]; exact h2
        simp [mapDelete, getStorageItem, hp, h, h2, hp2, ih]
    · by_cases hq : p.1 = k'
      · have hk : ¬ k' = k := fun hc => hp (hq.trans hc)
        simp [mapDelete, getStorageItem, hp, hq, hk]
      · simp [mapDelete, getStorageItem, hp, hq, ih]

theorem mapDelete_of_not_mem (ds : StorageCollection) (k : Key)
    (h : k ∉ ds.map Prod.fst) : mapDelete ds k = ds := by
  induction ds with
  | nil => rfl
  | cons p rest ih =>
    simp only [List.map_cons, List.mem_cons] at h
    push_neg at h
    have hp : ¬ p.1 = k := fun hc => h.1 hc.symm
    simp [mapDelete, hp, ih h.2]

theorem mem_mapSet (ds : StorageCollection) (k : Key) (it : StorageItem)
    (p : Key × StorageItem) (h : p ∈ mapSet ds k it) : p ∈ ds ∨ p = (k, it) := by
  induction ds with
  | nil => simp [mapSet] at h; simp [h]
  | cons q rest ih =>
    by_cases hq : q.1 = k
    · simp only [mapSet, if_pos hq, List.mem_cons] at h
      rcases h with h | h
      · right; exact h
      · left; simp [h]
    · simp only [mapSet, if_neg hq, List.mem_cons] at h
      rcases h with h | h
      · left; simp [h]
      · rcases ih h with h' | h'
        · left; simp [h']
        · right; exact h'

theorem mem_mapDelete (ds : StorageCollection) (k : Key)
    (p : Key × StorageItem) (h : p ∈ mapDelete ds k) : p ∈ ds := by
  induction ds with
  | nil => simp [mapDelete] at h
  | cons q rest ih =>
    by_cases hq : q.1 = k
    · simp only [mapDelete, if_pos hq] at h
      exact List.mem_cons_of_mem _ (ih h)
    · simp only [mapDelete, if_neg hq, List.mem_cons] at h
      rcases h with h | h
      · simp [h]
      · exact List.mem_cons_of_mem _ (ih h)

theorem getStorageItem_mem (ds : StorageCollection) (k : Key) (it : StorageItem)
    (h : getStorageItem ds k = some it) : (k, it) ∈ ds := by
  induction ds with
  | nil => simp [getStorageItem] at h
  | cons p rest ih =>
    by_cases hp : p.1 = k
    · simp only [getStorageItem, if_pos hp, Option.some.injEq] at h
      have hpe : (k, it) = p := by
        calc (k, it) = (p.1, p.2) := by rw [hp, h]
          _ = p := rfl
      rw [hpe]
      exact List.mem_cons_self p rest
    · simp only [getStorageItem, if_neg hp] at h
      exact List.mem_cons_of_mem _ (ih h)

/-! ## Unfold lemmas for `setValue` and `unsetValue` -/

/-- A rejected write (`item.protected && !force`) returns the stored value
and changes nothing; no callback fires. -/
theorem setValue_of_rejected (st : GlobalState) (now : Nat) (key : Key)
    (value : Value) (options : SetOptions)
    (h : writeRejected st key options = true) :
    setValue st now key value options = (getValue st key, st, []) := by
  unfold setValue
  unfold writeRejected at h
  simp [getValue, h]

/-- The entry written by an accepted `setValue` call. -/
def writtenItem (st : GlobalState) (now : Nat) (key : Key) (value : Value)
    (options : SetOptions) : StorageItem :=
  let item := getStorageItem st.datastore key
  { value := value
    «protected» := options.«protected».getD st.defaultOptions.«protected»
    onUpdate := (item.bind (fun i => i.onUpdate)).or
      (options.onUpdate.or st.defaultOptions.onUpdate)
    onDelete := (item.bind (fun i => i.onDelete)).or
      (options.onDelete.or st.defaultOptions.onDelete)
    createdAt := (item.map (fun i => i.createdAt)).getD now
    updatedAt := now }

/-- The events fired by an accepted `setValue` call. -/
def setEvents (st : GlobalState) (key : Key) (value : Value)
    (options : SetOptions) : List Event :=
  match (getStorageItem st.datastore key).bind (fun i => i.onUpdate) with
  | some cb =>
    if !(options.silent.getD st.defaultOptions.silent) then
      [Event.update cb key value
        (((getStorageItem st.datastore key).map (fun i => i.value)).getD Value.undef)]
    else []
  | none => []

/-- An accepted write stores `writtenItem` and fires `setEvents`. -/
theorem setValue_of_accepted (st : GlobalState) (now : Nat) (key : Key)
    (value : Value) (options : SetOptions)
    (h : writeRejected st key options = false) :
    setValue st now key value options =
      (value,
       ⟨mapSet st.datastore key (writtenItem st now key value options),
        st.defaultOptions⟩,
       setEvents st key value options) := by
  unfold setValue writtenItem setEvents
  unfold writeRejected at h
  simp [h]

/-- `unsetValue` on an absent key is a no-op. -/
theorem unsetValue_of_absent (st : GlobalState) (key : Key) (options : UnsetOptions)
    (h : getStorageItem st.datastore key = none) :
    unsetValue st key options = (st, []) := by
  unfold unsetValue
  rw [h]

/-- `unsetValue` on a present key: delete the entry and fire `onDelete`
with the current value unless silenced. -/
theorem unsetValue_of_present (st : GlobalState) (key : Key) (options : UnsetOptions)
    (item : StorageItem) (h : getStorageItem st.datastore key = some item) :
    unsetValue st key options =
      (⟨mapDelete st.datastore key, st.defaultOptions⟩,
       if options.silent.getD st.defaultOptions.silent = false then
         (item.onDelete.map (fun cb => Event.delete cb key item.value)).toList
       else []) := by
  unfold unsetValue
  rw [h]
  cases hs : options.silent.getD st.defaultOptions.silent <;>
    cases hd : item.onDelete <;> simp [hs, hd]

/-! ## Lemmas about `flushKeys` -/

/-- `flushKeys` is the left fold of `unsetValue` over the key list. -/
theorem flushKeys_eq_foldl (options : FlushOptions) (ks : List Key)
    (st : GlobalState) (acc : List Event) :
    List.foldl
      (fun r k => ((unsetValue r.1 k options).1, r.2 ++ (unsetValue r.1 k options).2))
      (st, acc) ks =
    ((flushKeys options ks st).1, acc ++ (flushKeys options ks st).2) := by
  induction ks generalizing st acc with
  | nil => simp [flushKeys]
  | cons k ks ih =>
    simp only [List.foldl_cons, flushKeys, ih, List.append_assoc]

/-- Entries surviving `flushKeys` were already in the store. -/
theorem flushKeys_datastore_subset (options : FlushOptions) (ks : List Key)
    (st : GlobalState) (p : Key × StorageItem)
    (h : p ∈ (flushKeys options ks st).1.datastore) : p ∈ st.datastore := by
  induction ks generalizing st with
  | nil => simpa [flushKeys] using h
  | cons k ks ih =>
    simp only [flushKeys] at h
    have h1 := ih (unsetValue st k options).1 h
    unfold unsetValue at h1
    cases hg : getStorageItem st.datastore k with
    | none => rw [hg] at h1; exact h1
    | some item =>
      rw [hg] at h1
      exact mem_mapDelete _ _ _ h1

/-- `flushKeys` does not touch the default-options registry. -/
theorem flushKeys_defaultOptions (options : FlushOptions) (ks : List Key)
    (st : GlobalState) :
    (flushKeys options ks st).1.defaultOptions = st.defaultOptions := by
  induction ks generalizing st with
  | nil => rfl
  | cons k ks ih =>
    simp only [flushKeys]
    rw [ih]
    unfold unsetValue
    cases hg : getStorageItem st.datastore k <;> simp

/-- Running `flushKeys` over exactly the (distinct) keys of the store empties
it and fires each entry's `onDelete` once, in store order, unless silenced. -/
theorem flushKeys_of_store (options : FlushOptions) (dopts : DefaultOptions)
    (ds : StorageCollection) (hnodup : (ds.map Prod.fst).Nodup) :
    flushKeys options (ds.map Prod.fst) ⟨ds, dopts⟩ =
      (⟨[], dopts⟩,
       if options.silent.getD dopts.silent = true then []
       else ds.filterMap
         (fun p => p.2.onDelete.map (fun cb => Event.delete cb p.1 p.2.value))) := by
  induction ds with
  | nil => cases hs : options.silent.getD dopts.silent <;> simp [flushKeys, hs]
  | cons p rest ih =>
    obtain ⟨k, item⟩ := p
    simp only [List.map_cons, List.nodup_cons, List.mem_map] at hnodup
    have hk : k ∉ rest.map Prod.fst := by
      intro hmem
      rcases List.mem_map.mp hmem with ⟨q, hq, hqk⟩
      exact hnodup.1 ⟨q, hq, hqk⟩
    have hget : getStorageItem ((k, item) :: rest) k = some item := by
      simp [getStorageItem]
    have hdel : mapDelete ((k, item) :: rest) k = rest := by
      simp only [mapDelete, if_pos rfl]
      exact mapDelete_of_not_mem rest k hk
    rw [List.map_cons]
    simp only [flushKeys]
    rw [unsetValue_of_present ⟨(k, item) :: rest, dopts⟩ k options item hget]
    simp only [hdel]
    rw [ih hnodup.2]
    cases hs : options.silent.getD dopts.silent <;>
      cases hd : item.onDelete <;> simp [hs, hd]

/-! ## Reachable states and the timestamp invariant -/

/-- States reachable from module load by the public operations, with a
(non-decreasing) clock supplying `new Date()` readings. -/
inductive Reachable : Nat → GlobalState → Prop
  | init : Reachable 0 initialState
  | tick {t t' : Nat} {st : GlobalState} : Reachable t st → t ≤ t' → Reachable t' st
  | set {t : Nat} {st : GlobalState} (key : Key) (value : Value) (options : SetOptions) :
      Reachable t st → Reachable t (setValue st t key value options).2.1
  | unset {t : Nat} {st : GlobalState} (key : Key) (options : UnsetOptions) :
      Reachable t st → Reachable t (unsetValue st key options).1
  | flushOp {t : Nat} {st : GlobalState} (options : FlushOptions) :
      Reachable t st → Reachable t (flush st options).1
  | setDefault {t : Nat} {st : GlobalState} (a : DefaultOptionAssignment) :
      Reachable t st → Reachable t (setDefaultOption st a)
  | resetDefault {t : Nat} {st : GlobalState} :
      Reachable t st → Reachable t (resetDefaultOptions st)

/-- Every entry's timestamps are ordered and bounded by the clock. -/
def timesOK (t : Nat) (st : GlobalState) : Prop :=
  ∀ p ∈ st.datastore, p.2.createdAt ≤ p.2.updatedAt ∧ p.2.updatedAt ≤ t

theorem timesOK_mono {t t' : Nat} {st : GlobalState} (h : timesOK t st)
    (hle : t ≤ t') : timesOK t' st := by
  intro p hp
  exact ⟨(h p hp).1, le_trans (h p hp).2 hle⟩

theorem timesOK_setValue {t : Nat} {st : GlobalState} (h : timesOK t st)
    (key : Key) (value : Value) (options : SetOptions) :
    timesOK t (setValue st t key value options).2.1 := by
  cases hr : writeRejected st key options with
  | true => rw [setValue_of_rejected st t key value options hr]; exact h
  | false =>
    rw [setValue_of_accepted st t key value options hr]
    intro p hp
    rcases mem_mapSet _ _ _ _ hp with hmem | heq
    · exact h p hmem
    · subst heq
      unfold writtenItem
      cases hg : getStorageItem st.datastore key with
      | none => simp
      | some item =>
        have hmem := getStorageItem_mem _ _ _ hg
        have := h (key, item) hmem
        simp only [hg]
        exact ⟨le_trans this.1 this.2, le_refl t⟩

theorem timesOK_unsetValue {t : Nat} {st : GlobalState} (h : timesOK t st)
    (key : Key) (options : UnsetOptions) :
    timesOK t (unsetValue st key options).1 := by
  intro p hp
  unfold unsetValue at hp
  cases hg : getStorageItem st.datastore key with
  | none => rw [hg] at hp; exact h p hp
  | some item =>
    rw [hg] at hp
    exact h p (mem_mapDelete _ _ _ hp)

theorem timesOK_flush {t : Nat} {st : GlobalState} (h : timesOK t st)
    (options : FlushOptions) : timesOK t (flush st options).1 := by
  intro p hp
  exact h p (flushKeys_datastore_subset options _ st p hp)

/-- The timestamp invariant holds in every reachable state. -/
theorem reachable_timesOK {t : Nat} {st : GlobalState} (h : Reachable t st) :
    timesOK t st := by
  induction h with
  | init => intro p hp; simp [initialState] at hp
  | tick _ hle ih => exact timesOK_mono ih hle
  | set key value options _ ih => exact timesOK_setValue ih key value options
  | unset key options _ ih => exact timesOK_unsetValue ih key options
  | flushOp options _ ih => exact timesOK_flush ih options
  | setDefault a _ ih => intro p hp; exact ih p (by cases a <;> exact hp)
  | resetDefault _ ih => intro p hp; exact ih p hp

/-! ## Shared concrete states for the witnesses -/

/-- A sample stored entry with both callbacks attached. -/
def sampleItem : StorageItem :=
  { value := Value.str "a", «protected» := false, createdAt := 0, updatedAt := 0,
    onUpdate := some 1, onDelete := some 2 }

/-- A sample state holding `sampleItem` under key `"k"`. -/
def sampleState : GlobalState :=
  { datastore := [("k", sampleItem)], defaultOptions := initialDefaultOptions }

/-- A sample state with a protected entry under key `"k"`. -/
def protectedState : GlobalState :=
  { datastore :=
      [("k", { value := Value.str "a", «protected» := true, createdAt := 0,
               updatedAt := 0 })],
    defaultOptions := initialDefaultOptions }

/-! ## The claims -/

/-- C1: a callback attached to an entry (`onUpdate` or `onDelete`) survives
every later `setValue` call on that key — the per-call and default options
only fill an empty hook (`item.onUpdate ||= ...`), so an attached callback is
never dropped or overwritten (in particular it persists across calls that
omit the option, and it still fires on a later accepted non-silent update). -/
theorem setValue_preserves_attached_callbacks (st : GlobalState) (now : Nat)
    (key : Key) (value : Value) (options : SetOptions) (item : StorageItem)
    (h : getStorageItem st.datastore key = some item) :
    (∀ cb, item.onUpdate = some cb →
      ∃ item', getStorageItem (setValue st now key value options).2.1.datastore key
          = some item' ∧ item'.onUpdate = some cb) ∧
    (∀ cb, item.onDelete = some cb →
      ∃ item', getStorageItem (setValue st now key value options).2.1.datastore key
          = some item' ∧ item'.onDelete = some cb) ∧
    (∀ cb, item.onUpdate = some cb → writeRejected st key options = false →
      options.silent.getD st.defaultOptions.silent = false →
      (setValue st now key value options).2.2 = [Event.update cb key value item.value]) := by
  cases hr : writeRejected st key options with
  | true =>
    rw [setValue_of_rejected st now key value options hr]
    refine ⟨fun cb hcb => ⟨item, h, hcb⟩, fun cb hcb => ⟨item, h, hcb⟩, ?_⟩
    intro cb _ hfalse
    simp at hfalse
  | false =>
    rw [setValue_of_accepted st now key value options hr]
    refine ⟨?_, ?_, ?_⟩
    · intro cb hcb
      refine ⟨writtenItem st now key value options, ?_, ?_⟩
      · simp [getStorageItem_mapSet]
      · unfold writtenItem
        simp [h, hcb, Option.or]
    · intro cb hcb
      refine ⟨writtenItem st now key value options, ?_, ?_⟩
      · simp [getStorageItem_mapSet]
      · unfold writtenItem
        simp [h, hcb, Option.or]
    · intro cb hcb _ hsilent
      unfold setEvents
      simp [h, hcb, hsilent]

/-- Witness for C1 at `sampleState`. -/
theorem setValue_preserves_attached_callbacks_witness :
    (∃ item', getStorageItem
        (setValue sampleState 1 "k" (Value.str "b") {}).2.1.datastore "k"
        = some item' ∧ item'.onUpdate = some 1) ∧
    (setValue sampleState 1 "k" (Value.str "b") {}).2.2 =
      [Event.update 1 "k" (Value.str "b") (Value.str "a")] := by
  have h := setValue_preserves_attached_callbacks sampleState 1 "k" (Value.str "b")
    {} sampleItem (by decide)
  exact ⟨h.1 1 (by decide), h.2.2 1 (by decide) (by decide) (by decide)⟩

/-- C2: a `setValue` on a protected key with effective `force` false is
silently rejected: it returns the previously stored value, leaves the whole
state (store and registry) unchanged, and fires no callback.  (`setValue` is
a total function here, matching the code's no-throw behavior.) -/
theorem setValue_protected_rejected (st : GlobalState) (now : Nat) (key : Key)
    (value : Value) (options : SetOptions) (item : StorageItem)
    (h : getStorageItem st.datastore key = some item)
    (hprot : item.«protected» = true)
    (hforce : options.force.getD st.defaultOptions.force = false) :
    (setValue st now key value options).1 = item.value ∧
    (setValue st now key value options).2.1 = st ∧
    (setValue st now key value options).2.2 = [] := by
  have hr : writeRejected st key options = true := by
    unfold writeRejected
    simp [h, hprot, hforce]
  rw [setValue_of_rejected st now key value options hr]
  refine ⟨?_, rfl, rfl⟩
  simp [getValue, h]

/-- Witness for C2 at `protectedState`. -/
theorem setValue_protected_rejected_witness :
    (setValue protectedState 1 "k" (Value.str "b") {}).1 = Value.str "a" ∧
    (setValue protectedState 1 "k" (Value.str "b") {}).2.1 = protectedState ∧
    (setValue protectedState 1 "k" (Value.str "b") {}).2.2 = [] := by
  have h := setValue_protected_rejected protectedState 1 "k" (Value.str "b") {}
    { value := Value.str "a", «protected» := true, createdAt := 0, updatedAt := 0 }
    (by decide) (by decide) (by decide)
  exact h

/-- C3: on an accepted overwrite of an entry carrying an `onUpdate` callback,
the callback fires exactly once with `(key, newValue, oldValue)` where
`oldValue` is the pre-call stored value (the call happens before the entry is
overwritten), and the entry's value afterwards is the new value; with
effective `silent` true it does not fire at all. -/
theorem setValue_onUpdate_firing (st : GlobalState) (now : Nat) (key : Key)
    (value : Value) (options : SetOptions) (item : StorageItem) (cb : Callback)
    (h : getStorageItem st.datastore key = some item)
    (hcb : item.onUpdate = some cb)
    (hacc : writeRejected st key options = false) :
    (options.silent.getD st.defaultOptions.silent = false →
      (setValue st now key value options).2.2 =
        [Event.update cb key value item.value]) ∧
    (options.silent.getD st.defaultOptions.silent = true →
      (setValue st now key value options).2.2 = []) ∧
    (∃ item', getStorageItem (setValue st now key value options).2.1.datastore key
        = some item' ∧ item'.value = value) := by
  rw [setValue_of_accepted st now key value options hacc]
  refine ⟨?_, ?_, ?_⟩
  · intro hsilent
    unfold setEvents
    simp [h, hcb, hsilent]
  · intro hsilent
    unfold setEvents
    simp [h, hcb, hsilent]
  · refine ⟨writtenItem st now key value options, ?_, ?_⟩
    · simp [getStorageItem_mapSet]
    · unfold writtenItem
      simp

/-- Witness for C3 at `sampleState` (non-silent and silent variants). -/
theorem setValue_onUpdate_firing_witness :
    (setValue sampleState 1 "k" (Value.str "b") {}).2.2 =
      [Event.update 1 "k" (Value.str "b") (Value.str "a")] ∧
    (setValue sampleState 1 "k" (Value.str "b") { silent := some true }).2.2 = [] := by
  have h1 := setValue_onUpdate_firing sampleState 1 "k" (Value.str "b") {}
    sampleItem 1 (by decide) (by decide) (by decide)
  have h2 := setValue_onUpdate_firing sampleState 1 "k" (Value.str "b")
    { silent := some true } sampleItem 1 (by decide) (by decide) (by decide)
  exact ⟨h1.1 (by decide), h2.2.1 (by decide)⟩

/-- C4: `unsetValue` is a no-op on an absent key; on a present key it removes
the entry unconditionally (protection is never consulted, so protected
entries are removed too), firing `onDelete` exactly once with
`(key, currentValue)` — before the removal — unless the effective `silent` is
true or no callback is attached; afterwards `isSet` is false. -/
theorem unsetValue_contract (st : GlobalState) (key : Key) (options : UnsetOptions) :
    (getStorageItem st.datastore key = none → unsetValue st key options = (st, [])) ∧
    (∀ item, getStorageItem st.datastore key = some item →
      isSet (unsetValue st key options).1 key = false ∧
      (unsetValue st key options).1.datastore = mapDelete st.datastore key ∧
      (unsetValue st key options).1.defaultOptions = st.defaultOptions ∧
      (unsetValue st key options).2 =
        (if options.silent.getD st.defaultOptions.silent = false then
          (item.onDelete.map (fun cb => Event.delete cb key item.value)).toList
        else [])) := by
  constructor
  · intro h
    exact unsetValue_of_absent st key options h
  · intro item h
    rw [unsetValue_of_present st key options item h]
    refine ⟨?_, rfl, rfl, rfl⟩
    simp [isSet, mapHas, getStorageItem_mapDelete]

/-- Witness for C4: removing the protected entry of `protectedState`. -/
theorem unsetValue_contract_witness :
    isSet (unsetValue protectedState "k" {}).1 "k" = false ∧
    (unsetValue protectedState "k" {}).2 = [] := by
  have h := (unsetValue_contract protectedState "k" {}).2
    { value := Value.str "a", «protected» := true, createdAt := 0, updatedAt := 0 }
    (by decide)
  exact ⟨h.1, by rw [h.2.2.2]; decide⟩

/-- C5: `flush` is the left-to-right composition of `unsetValue` over the
keys present at the start of the flush (the store's keys are distinct, being
a JS `Map`); afterwards the store is empty — protected entries included —
and each removed entry's `onDelete` fires once with `(key, value)`, unless
the effective `silent` is true, in which case no callback fires. -/
theorem flush_refines_unsetValue (st : GlobalState) (options : FlushOptions)
    (hnodup : (st.datastore.map Prod.fst).Nodup) :
    flush st options =
      List.foldl
        (fun r k => ((unsetValue r.1 k options).1, r.2 ++ (unsetValue r.1 k options).2))
        (st, []) (st.datastore.map Prod.fst) ∧
    (flush st options).1.datastore = [] ∧
    (flush st options).1.defaultOptions = st.defaultOptions ∧
    (flush st options).2 =
      (if options.silent.getD st.defaultOptions.silent = true then []
       else st.datastore.filterMap
         (fun p => p.2.onDelete.map (fun cb => Event.delete cb p.1 p.2.value))) := by
  obtain ⟨ds, dopts⟩ := st
  have h := flushKeys_of_store options dopts ds hnodup
  refine ⟨?_, ?_, ?_, ?_⟩
  · rw [flushKeys_eq_foldl]
    simp [flush]
  · show (flushKeys options (ds.map Prod.fst) ⟨ds, dopts⟩).1.datastore = []
    rw [h]
  · show (flushKeys options (ds.map Prod.fst) ⟨ds, dopts⟩).1.defaultOptions = dopts
    rw [h]
  · show (flushKeys options (ds.map Prod.fst) ⟨ds, dopts⟩).2 = _
    rw [h]

/-- Witness for C5 on a two-entry store with `onDelete` callbacks. -/
theorem flush_refines_unsetValue_witness :
    (flush ⟨[("a", { value := Value.int 1, «protected» := true, createdAt := 0,
                     updatedAt := 0, onDelete := some 10 }),
             ("b", { value := Value.int 2, «protected» := false, createdAt := 0,
                     updatedAt := 0, onDelete := some 20 })],
            initialDefaultOptions⟩ {}).1.datastore = [] ∧
    (flush ⟨[("a", { value := Value.int 1, «protected» := true, createdAt := 0,
                     updatedAt := 0, onDelete := some 10 }),
             ("b", { value := Value.int 2, «protected» := false, createdAt := 0,
                     updatedAt := 0, onDelete := some 20 })],
            initialDefaultOptions⟩ {}).2 =
      [Event.delete 10 "a" (Value.int 1), Event.delete 20 "b" (Value.int 2)] := by
  have h := flush_refines_unsetValue
    ⟨[("a", { value := Value.int 1, «protected» := true, createdAt := 0,
              updatedAt := 0, onDelete := some 10 }),
      ("b", { value := Value.int 2, «protected» := false, createdAt := 0,
              updatedAt := 0, onDelete := some 20 })],
     initialDefaultOptions⟩ {} (by decide)
  exact ⟨h.2.1, by rw [h.2.2.2]; decide⟩

/-- C6: every accepted write recomputes the entry's `protected` flag as
`options.protected ?? defaults.protected`, never merging the prior state; in
particular, under the initial defaults, a forced overwrite of a protected
entry that omits `protected` returns the new value, stores it, and leaves
the entry unprotected. -/
theorem setValue_recomputes_protected :
    (∀ st now key value options, writeRejected st key options = false →
      ∃ item', getStorageItem (setValue st now key value options).2.1.datastore key
          = some item' ∧
        item'.«protected» = options.«protected».getD st.defaultOptions.«protected») ∧
    (∀ (k : Key) (v1 v2 : Value),
      (setValue (setValue initialState 0 k v1 { «protected» := some true }).2.1
          1 k v2 { force := some true }).1 = v2 ∧
      getValue (setValue (setValue initialState 0 k v1 { «protected» := some true }).2.1
          1 k v2 { force := some true }).2.1 k = v2 ∧
      isProtected (setValue (setValue initialState 0 k v1 { «protected» := some true }).2.1
          1 k v2 { force := some true }).2.1 k = false) := by
  constructor
  · intro st now key value options hacc
    rw [setValue_of_accepted st now key value options hacc]
    refine ⟨writtenItem st now key value options, by simp [getStorageItem_mapSet], rfl⟩
  · intro k v1 v2
    simp [setValue, getValue, isProtected, initialState, initialDefaultOptions,
      getStorageItem, mapSet]

/-- Witness for C6: forced overwrite of `protectedState` yields an
unprotected entry. -/
theorem setValue_recomputes_protected_witness :
    ∃ item', getStorageItem (setValue protectedState 1 "k" (Value.str "b")
        { force := some true }).2.1.datastore "k" = some item' ∧
      item'.«protected» = false := by
  have h := setValue_recomputes_protected.1 protectedState 1 "k" (Value.str "b")
    { force := some true } (by decide)
  obtain ⟨item', h1, h2⟩ := h
  exact ⟨item', h1, h2⟩

/-- C7: `createdAt` is assigned at the first insertion of a key and preserved
by every later accepted write, `updatedAt` is set to the current time on
every accepted write, and `createdAt ≤ updatedAt` holds for every entry of
every reachable state. -/
theorem timestamps_contract :
    (∀ st now key value options, getStorageItem st.datastore key = none →
      ∃ item', getStorageItem (setValue st now key value options).2.1.datastore key
          = some item' ∧ item'.createdAt = now ∧ item'.updatedAt = now) ∧
    (∀ st now key value options item, getStorageItem st.datastore key = some item →
      writeRejected st key options = false →
      ∃ item', getStorageItem (setValue st now key value options).2.1.datastore key
          = some item' ∧ item'.createdAt = item.createdAt ∧ item'.updatedAt = now) ∧
    (∀ t st, Reachable t st → ∀ key item, getMetadata st key = some item →
      item.createdAt ≤ item.updatedAt) := by
  refine ⟨?_, ?_, ?_⟩
  · intro st now key value options h
    have hacc : writeRejected st key options = false := by
      unfold writeRejected
      simp [h]
    rw [setValue_of_accepted st now key value options hacc]
    refine ⟨writtenItem st now key value options, by simp [getStorageItem_mapSet], ?_, rfl⟩
    unfold writtenItem
    simp [h]
  · intro st now key value options item h hacc
    rw [setValue_of_accepted st now key value options hacc]
    refine ⟨writtenItem st now key value options, by simp [getStorageItem_mapSet], ?_, rfl⟩
    unfold writtenItem
    simp [h]
  · intro t st hr key item h
    unfold getMetadata at h
    exact (reachable_timesOK hr (key, item) (getStorageItem_mem _ _ _ h)).1

/-- Witness for C7: a first insertion at time 5 from a reachable state. -/
theorem timestamps_contract_witness :
    (∃ item', getStorageItem (setValue initialState 5 "k" (Value.int 0) {}).2.1.datastore "k"
        = some item' ∧ item'.createdAt = 5 ∧ item'.updatedAt = 5) ∧
    ({ value := Value.int 0, «protected» := false, createdAt := 5,
       updatedAt := 5 } : StorageItem).createdAt ≤
      ({ value := Value.int 0, «protected» := false, createdAt := 5,
         updatedAt := 5 } : StorageItem).updatedAt := by
  constructor
  · exact timestamps_contract.1 initialState 5 "k" (Value.int 0) {} (by decide)
  · exact timestamps_contract.2.2 5 (setValue initialState 5 "k" (Value.int 0) {}).2.1
      (Reachable.set "k" (Value.int 0) {} (Reachable.tick Reachable.init (by omega)))
      "k" _ (by decide)

/-- C8: per-call options fall back to the registry defaults: after
`setDefaultOption("protected", true)` a `set` with no per-call options
creates a protected entry; `resetDefaultOptions()` restores the fixed
initial snapshot (protected/force/silent false, callbacks unset), after
which a plain `set` creates an unprotected entry. -/
theorem default_propagation_and_reset :
    isProtected (setValue (setDefaultOption initialState
      (.setProtected true)) 0 "k" (Value.str "v") {}).2.1 "k" = true ∧
    (resetDefaultOptions (setValue (setDefaultOption initialState
      (.setProtected true)) 0 "k" (Value.str "v") {}).2.1).defaultOptions
      = initialDefaultOptions ∧
    initialDefaultOptions =
      { «protected» := false, force := false, silent := false,
        onUpdate := none, onDelete := none } ∧
    isProtected (setValue (resetDefaultOptions (setValue (setDefaultOption initialState
      (.setProtected true)) 0 "k" (Value.str "v") {}).2.1) 1 "k2"
      (Value.str "v2") {}).2.1 "k2" = false := by
  refine ⟨by decide, by decide, rfl, by decide⟩

/-- C9: when the registry holds default `onUpdate`/`onDelete` callbacks at
the moment a `set` call creates an entry with per-call callbacks omitted,
those registry callbacks are attached to the entry; `resetDefaultOptions`
clears the registry but not the entry, so they still fire on a later update
and on deletion of that key. -/
theorem default_callbacks_attach_permanently (st : GlobalState) (now later : Nat)
    (key : Key) (value value2 : Value) (cbU cbD : Callback)
    (hU : st.defaultOptions.onUpdate = some cbU)
    (hD : st.defaultOptions.onDelete = some cbD)
    (hP : st.defaultOptions.«protected» = false)
    (habs : getStorageItem st.datastore key = none) :
    ∃ item', getStorageItem (setValue st now key value {}).2.1.datastore key
        = some item' ∧
      item'.onUpdate = some cbU ∧ item'.onDelete = some cbD ∧
      (resetDefaultOptions (setValue st now key value {}).2.1).defaultOptions.onUpdate
        = none ∧
      (resetDefaultOptions (setValue st now key value {}).2.1).defaultOptions.onDelete
        = none ∧
      getStorageItem (resetDefaultOptions (setValue st now key value {}).2.1).datastore key
        = some item' ∧
      (setValue (resetDefaultOptions (setValue st now key value {}).2.1)
          later key value2 {}).2.2 = [Event.update cbU key value2 value] ∧
      (unsetValue (resetDefaultOptions (setValue st now key value {}).2.1) key {}).2
        = [Event.delete cbD key value] := by
  have hacc : writeRejected st key {} = false := by
    unfold writeRejected
    simp [habs]
  have hWu : (writtenItem st now key value {}).onUpdate = some cbU := by
    unfold writtenItem
    simp [habs, hU, Option.or]
  have hWd : (writtenItem st now key value {}).onDelete = some cbD := by
    unfold writtenItem
    simp [habs, hD, Option.or]
  have hWv : (writtenItem st now key value {}).value = value := rfl
  have hWp : (writtenItem st now key value {}).«protected» = false := by
    unfold writtenItem
    simpa using hP
  rw [setValue_of_accepted st now key value {} hacc]
  have hget1 : getStorageItem (mapSet st.datastore key
      (writtenItem st now key value {})) key = some (writtenItem st now key value {}) := by
    simp [getStorageItem_mapSet]
  have hget2 : getStorageItem (resetDefaultOptions
      ⟨mapSet st.datastore key (writtenItem st now key value {}),
       st.defaultOptions⟩).datastore key = some (writtenItem st now key value {}) := by
    simpa [resetDefaultOptions] using hget1
  have hacc2 : writeRejected (resetDefaultOptions
      ⟨mapSet st.datastore key (writtenItem st now key value {}),
       st.defaultOptions⟩) key {} = false := by
    unfold writeRejected
    simp [hget1, hWp, resetDefaultOptions, initialDefaultOptions]
  refine ⟨writtenItem st now key value {}, hget1, hWu, hWd, rfl, rfl, hget2, ?_, ?_⟩
  · rw [setValue_of_accepted _ later key value2 {} hacc2]
    unfold setEvents
    simp [hget1, hWu, hWv, resetDefaultOptions, initialDefaultOptions]
  · rw [unsetValue_of_present _ key {} (writtenItem st now key value {}) hget2]
    simp [hWd, hWv, resetDefaultOptions, initialDefaultOptions]

/-- Witness for C9: registry callbacks 7 and 8 attached through a fresh
`set`, surviving a registry reset. -/
theorem default_callbacks_attach_permanently_witness :
    ∃ item', getStorageItem (setValue
        ⟨[], { initialDefaultOptions with onUpdate := some 7, onDelete := some 8 }⟩
        0 "k" (Value.int 1) {}).2.1.datastore "k" = some item' ∧
      item'.onUpdate = some 7 ∧ item'.onDelete = some 8 ∧
      (resetDefaultOptions (setValue
        ⟨[], { initialDefaultOptions with onUpdate := some 7, onDelete := some 8 }⟩
        0 "k" (Value.int 1) {}).2.1).defaultOptions.onUpdate = none ∧
      (resetDefaultOptions (setValue
        ⟨[], { initialDefaultOptions with onUpdate := some 7, onDelete := some 8 }⟩
        0 "k" (Value.int 1) {}).2.1).defaultOptions.onDelete = none ∧
      getStorageItem (resetDefaultOptions (setValue
        ⟨[], { initialDefaultOptions with onUpdate := some 7, onDelete := some 8 }⟩
        0 "k" (Value.int 1) {}).2.1).datastore "k" = some item' ∧
      (setValue (resetDefaultOptions (setValue
        ⟨[], { initialDefaultOptions with onUpdate := some 7, onDelete := some 8 }⟩
        0 "k" (Value.int 1) {}).2.1) 1 "k" (Value.int 2) {}).2.2 =
        [Event.update 7 "k" (Value.int 2) (Value.int 1)] ∧
      (unsetValue (resetDefaultOptions (setValue
        ⟨[], { initialDefaultOptions with onUpdate := some 7, onDelete := some 8 }⟩
        0 "k" (Value.int 1) {}).2.1) "k" {}).2 =
        [Event.delete 8 "k" (Value.int 1)] :=
  default_callbacks_attach_permanently
    ⟨[], { initialDefaultOptions with onUpdate := some 7, onDelete := some 8 }⟩
    0 1 "k" (Value.int 1) (Value.int 2) 7 8 (by decide) (by decide) (by decide)
    (by decide)

/-- C10: a stored `undefined` is indistinguishable from absence through
`getValue` (both read `undefined`) but distinguishable through `isSet` and
`getMetadata`: after an accepted `setValue(key, undefined)`, `getValue` is
`undefined`, `isSet` is true, and `getMetadata` returns the entry. -/
theorem setValue_undef_vs_absence (st : GlobalState) (now : Nat)
    (key : Key) (options : SetOptions)
    (hacc : writeRejected st key options = false) :
    getValue (setValue st now key Value.undef options).2.1 key = Value.undef ∧
    (∀ st' k', getStorageItem st'.datastore k' = none → getValue st' k' = Value.undef) ∧
    isSet (setValue st now key Value.undef options).2.1 key = true ∧
    (∃ item, getMetadata (setValue st now key Value.undef options).2.1 key
        = some item ∧ item.value = Value.undef) := by
  rw [setValue_of_accepted st now key Value.undef options hacc]
  refine ⟨?_, ?_, ?_, ?_⟩
  · simp [getValue, getStorageItem_mapSet]
    rfl
  · intro st' k' h
    simp [getValue, h]
  · simp [isSet, mapHas, getStorageItem_mapSet]
  · refine ⟨writtenItem st now key Value.undef options, ?_, rfl⟩
    simp [getMetadata, getStorageItem_mapSet]

/-- Witness for C10 at the initial state. -/
theorem setValue_undef_vs_absence_witness :
    getValue (setValue initialState 0 "k" Value.undef {}).2.1 "k" = Value.undef ∧
    getValue initialState "other" = Value.undef ∧
    isSet (setValue initialState 0 "k" Value.undef {}).2.1 "k" = true := by
  have h := setValue_undef_vs_absence initialState 0 "k" {} (by decide)
  exact ⟨h.1, h.2.1 initialState "other" (by decide), h.2.2.1⟩

end NodeGlobalStorage
